import Mathlib

/-!
Verification of the exon-coverage pipeline of `cassette_reannotation`
(`src/lib.rs` and `src/exon_cov.rs`), as a shallow embedding in Lean.

Machine integers (`u64`) are modelled as `Nat`; wrap-around is modelled
explicitly (`% 2 ^ 64`) at the one place where it matters, the `exon.start - 1`
subtraction of `write_exon_cov`.  `f64` accumulators that only ever hold
integer sums are modelled as `Nat`; the two division formulas of the result
row are modelled over `ℚ` (all values in the specified instances are exactly
representable in `f64`, so the rational model agrees with the code there).
-/

namespace CassetteReannotation

/-- Half-open reference range, Rust `std::ops::Range<u64>` as used throughout
`lib.rs` and `exon_cov.rs`.  The field `stop` renders the Rust field `end`
(a Lean keyword). -/
structure RRange where
  start : Nat
  stop : Nat
deriving DecidableEq, Repr

/-- CIGAR alignment operation, the `rust_htslib::bam::record::Cigar` variants
matched by `cigar2exons` in `src/lib.rs`. -/
inductive Cigar where
  | Match (length : Nat)
  | Ins (length : Nat)
  | Del (length : Nat)
  | RefSkip (length : Nat)
  | SoftClip (length : Nat)
  | HardClip (length : Nat)
  | Pad (length : Nat)
  | Equal (length : Nat)
  | Diff (length : Nat)
deriving DecidableEq, Repr

/-- `cigar2exons` (`src/lib.rs`, lines 44-68): walks the operation list with a
position cursor.  A `Match` advances the cursor and, when its length is
positive, pushes the range it covered; `RefSkip`, `Del`, `Equal` and `Diff`
advance the cursor without pushing; `Ins`, `SoftClip`, `HardClip` and `Pad`
are ignored.  The Rust function returns `Result` but has no error path, so the
model is total. -/
def cigar2exons : List Cigar → Nat → List RRange
  | [], _ => []
  | op :: rest, pos =>
    match op with
    | .Match l => (if 0 < l then [⟨pos, pos + l⟩] else []) ++ cigar2exons rest (pos + l)
    | .RefSkip l => cigar2exons rest (pos + l)
    | .Del l => cigar2exons rest (pos + l)
    | .Equal l => cigar2exons rest (pos + l)
    | .Diff l => cigar2exons rest (pos + l)
    | .Ins _ => cigar2exons rest pos
    | .SoftClip _ => cigar2exons rest pos
    | .HardClip _ => cigar2exons rest pos
    | .Pad _ => cigar2exons rest pos

/-- Reference bases consumed by one operation, per the claimed projector
semantics: matches, deletions, reference skips, equal and diff consume
reference; insertions, clips and padding do not. -/
def refConsumed : Cigar → Nat
  | .Match l => l
  | .Del l => l
  | .RefSkip l => l
  | .Equal l => l
  | .Diff l => l
  | .Ins _ => 0
  | .SoftClip _ => 0
  | .HardClip _ => 0
  | .Pad _ => 0

/-- Whether one operation emits a covered range, per the CLAIMED projector
semantics (spec 4.3): match, equal and diff operations of positive length
emit. -/
def claimEmits : Cigar → Bool
  | .Match l => decide (0 < l)
  | .Equal l => decide (0 < l)
  | .Diff l => decide (0 < l)
  | _ => false

/-- Whether one operation emits a covered range, per the code: only a `Match`
of positive length emits. -/
def codeEmits : Cigar → Bool
  | .Match l => decide (0 < l)
  | _ => false

/-- Generic projector: emit one range per operation satisfying `emits`,
advancing the cursor by `refConsumed`. -/
def projectWith (emits : Cigar → Bool) : List Cigar → Nat → List RRange
  | [], _ => []
  | op :: rest, pos =>
    (if emits op then [⟨pos, pos + refConsumed op⟩] else [])
      ++ projectWith emits rest (pos + refConsumed op)

/-- The projector exactly as the claim words it (match/equal/diff emit). -/
def cigar2exonsClaimed (ops : List Cigar) (pos : Nat) : List RRange :=
  projectWith claimEmits ops pos

/-- The projector as amended to the code (only match emits). -/
def cigar2exonsAmendedSpec (ops : List Cigar) (pos : Nat) : List RRange :=
  projectWith codeEmits ops pos

/-- C2 counterexample: on the single operation `Equal(5)` at position 0 the
claim predicts the emitted range `[0,5)`, but `cigar2exons` emits nothing:
the code groups `Equal` and `Diff` with the advance-only operations. -/
theorem cigar2exons_equal_op_counterexample :
    cigar2exons [Cigar.Equal 5] 0 = []
      ∧ cigar2exonsClaimed [Cigar.Equal 5] 0 = [⟨0, 5⟩]
      ∧ cigar2exons [Cigar.Equal 5] 0 ≠ cigar2exonsClaimed [Cigar.Equal 5] 0 := by
  refine ⟨rfl, rfl, ?_⟩
  decide

/-- C2 amended: `cigar2exons` emits one half-open range per positive-length
`Match` operation only; deletions, reference skips, `Equal` and `Diff`
advance the position cursor without emitting; insertions, soft/hard clips and
padding neither advance nor emit; zero-length matches emit nothing.  The
three concrete examples of the claim evaluate as stated. -/
theorem cigar2exons_amended :
    (∀ (ops : List Cigar) (pos : Nat),
        cigar2exons ops pos = cigar2exonsAmendedSpec ops pos)
      ∧ cigar2exons [Cigar.Match 5] 100 = [⟨100, 105⟩]
      ∧ cigar2exons [Cigar.Match 3, Cigar.Del 2, Cigar.Match 4] 0 = [⟨0, 3⟩, ⟨5, 9⟩]
      ∧ cigar2exons [Cigar.SoftClip 10, Cigar.Match 5] 0 = [⟨0, 5⟩] := by
  refine ⟨?_, rfl, rfl, rfl⟩
  intro ops
  induction ops with
  | nil => intro pos; rfl
  | cons op rest ih =>
    intro pos
    cases op <;>
      simp [cigar2exons, cigar2exonsAmendedSpec, projectWith, refConsumed, codeEmits, ih pos,
        ih (pos + _)]

/-- An interval with optional origin row, the element type
`(Range<u64>, Option<usize>)` of the per-`(chromosome, strand)` vectors in
`write_exon_cov` (`src/exon_cov.rs`). -/
def IntervalE : Type := RRange × Option Nat
deriving DecidableEq, Repr

/-- Stable insertion of one element into a list already sorted by interval
start: the element goes after every element whose start is not greater.  Used
to model Rust `sort_by_key(|u| u.0.start)`, which is a stable sort by that
key; a stable sort by key is extensionally unique, so any stable
implementation renders it. -/
def insertByStart (x : IntervalE) : List IntervalE → List IntervalE
  | [] => [x]
  | y :: ys =>
    if x.1.start < y.1.start then x :: y :: ys else y :: insertByStart x ys

/-- Stable sort of a group by interval start ascending,
`unmerged.sort_by_key(|u| u.0.start)` in `write_exon_cov`
(`src/exon_cov.rs`, line 135). -/
def sortByStart : List IntervalE → List IntervalE
  | [] => []
  | x :: xs => insertByStart x (sortByStart xs)

/-- The merge loop of `write_exon_cov` (`src/exon_cov.rs`, lines 137-148),
with `last` the last emitted merged interval.  When the current interval
overlaps `last` (`exon.0.start < last.0.end && last.0.start < exon.0.end`)
the code assigns `last.0.end = exon.0.end`; otherwise it pushes
`(exon.0.clone(), None)`. -/
def mergeRun (last : IntervalE) : List IntervalE → List IntervalE
  | [] => [last]
  | exon :: rest =>
    if exon.1.start < last.1.stop ∧ last.1.start < exon.1.stop then
      mergeRun (⟨last.1.start, exon.1.stop⟩, last.2) rest
    else
      last :: mergeRun (exon.1, none) rest

/-- Merging one sorted `(chromosome, strand)` group: the first interval starts
the merged list (with origin erased), then `mergeRun` folds the rest. -/
def mergeGroup : List IntervalE → List IntervalE
  | [] => []
  | exon :: rest => mergeRun (exon.1, none) rest

/-- The full per-group pipeline of `write_exon_cov`: sort by start, then
merge. -/
def sortAndMerge (l : List IntervalE) : List IntervalE :=
  mergeGroup (sortByStart l)

/-- Whether a position is covered by some interval of the list. -/
def coversPos (l : List IntervalE) (p : Nat) : Bool :=
  l.any (fun r => decide (r.1.start ≤ p) && decide (p < r.1.stop))

/-- C1: evaluating the merge on the sorted group `[0,10), [2,5)` (both
intervals overlap).  The claim predicts the merged end
`max 10 5 = 10`, i.e. output `[0,10)`; the code assigns the current
interval end and yields `[0,5)` — the merged end decreases from 10 to 5. -/
theorem merge_end_overwrite_eval :
    sortAndMerge [(⟨0, 10⟩, some 0), (⟨2, 5⟩, some 1)] = [(⟨0, 5⟩, none)]
      ∧ sortAndMerge [(⟨0, 10⟩, some 0), (⟨2, 5⟩, some 1)] ≠ [(⟨0, 10⟩, none)] := by
  constructor
  · rfl
  · decide

/-- C3: evaluating the merge on the group `[0,10), [3,4)`: position 5 is
covered by the input union but not by the merged output, so the merged
union of covered positions of the output is strictly smaller than that of the input. -/
theorem merge_union_loss_eval :
    sortAndMerge [(⟨0, 10⟩, some 0), (⟨3, 4⟩, some 1)] = [(⟨0, 4⟩, none)]
      ∧ coversPos [(⟨0, 10⟩, some 0), (⟨3, 4⟩, some 1)] 5 = true
      ∧ coversPos (sortAndMerge [(⟨0, 10⟩, some 0), (⟨3, 4⟩, some 1)]) 5 = false := by
  exact ⟨rfl, rfl, rfl⟩

/-- The fields of a fetched BAM record used by the per-read loop of
`write_exon_cov_to_file` (`src/exon_cov.rs`, lines 214-232): template name,
first-mate flag, reverse-strand flag, leftmost position, CIGAR operations. -/
structure BamRead where
  qname : String
  is_first_in_template : Bool
  is_reverse : Bool
  pos : Nat
  cigar : List Cigar
deriving DecidableEq, Repr

/-- The strand filter of `write_exon_cov_to_file` (`src/exon_cov.rs`, lines
217-221): with `read1strand = Some(is_read1strand)` the read is kept iff
`((is_read1strand == read.is_first_in_template()) == !read.is_reverse()) ==
strand_is_plus`; with `read1strand = None` (unstranded source) the check is
skipped and every read is kept. -/
def keepRead (read1strand : Option Bool) (read : BamRead) (strand_is_plus : Bool) : Bool :=
  match read1strand with
  | none => true
  | some is_read1strand =>
    ((is_read1strand == read.is_first_in_template) == !read.is_reverse) == strand_is_plus

/-- The overlap contribution of one projected range to the target interval
(`src/exon_cov.rs`, lines 227-231): when
`e.start < exon.0.end && exon.0.start < e.end` the code adds
`min(e.end, exon.0.end) - max(e.start, exon.0.start)` (u64 subtraction, here
`Nat` subtraction), otherwise nothing. -/
def rangeContribution (e : RRange) (exon : RRange) : Nat :=
  if e.start < exon.stop ∧ exon.start < e.stop then
    min e.stop exon.stop - max e.start exon.start
  else 0

/-- Total coverage contribution of one read: its CIGAR projection summed
through `rangeContribution` (`src/exon_cov.rs`, lines 225-232). -/
def readContribution (read : BamRead) (exon : RRange) : Nat :=
  ((cigar2exons read.cigar read.pos).map (fun e => rangeContribution e exon)).sum

/-- `HashSet<String>` insertion of the read name, modelled on a duplicate-free
list (`exon_reads.insert(read_name)`, `src/exon_cov.rs`, line 223). -/
def insertName (s : List String) (n : String) : List String :=
  if n ∈ s then s else s ++ [n]

/-- One iteration of the per-read loop (`src/exon_cov.rs`, lines 214-233)
over the state `(exon_cov, exon_reads)`: a read failing the strand filter is
skipped by `continue` before touching either component; a kept read has its
name inserted and its projected ranges accumulated. -/
def processRead (read1strand : Option Bool) (strand_is_plus : Bool) (exon : RRange)
    (st : Nat × List String) (read : BamRead) : Nat × List String :=
  if keepRead read1strand read strand_is_plus then
    (st.1 + readContribution read exon, insertName st.2 read.qname)
  else st

/-- C4: the strand filter.  With a stranded source the read is kept iff the
chained boolean XNOR of the claim holds; a read failing the test leaves both
the coverage total and the distinct-read set untouched; with an unstranded
source the filter is skipped (every read passes); and a read with
`is_read1_plus_indicator = true`, `is_first = true`, `is_reverse = false` is
kept only when the interval strand is plus. -/
theorem strand_filter_spec (b p : Bool) (read : BamRead) (exon : RRange)
    (st : Nat × List String) :
    (keepRead (some b) read p = true ↔
      (((b = read.is_first_in_template) ↔ read.is_reverse = false) ↔ p = true))
      ∧ keepRead none read p = true
      ∧ (keepRead (some b) read p = false →
          processRead (some b) p exon st read = st)
      ∧ (read.is_first_in_template = true → read.is_reverse = false →
          (keepRead (some true) read p = true ↔ p = true)) := by
  refine ⟨?_, rfl, ?_, ?_⟩
  · cases b <;> cases p <;> cases h1 : read.is_first_in_template <;>
      cases h2 : read.is_reverse <;> simp [keepRead, h1, h2]
  · intro h
    simp [processRead, h]
  · intro h1 h2
    cases p <;> simp [keepRead, h1, h2]

/-- C4 witness: the filter evaluated on a concrete read (first mate, forward
strand) against both interval strands, and the no-contribution consequence at
a concrete state. -/
theorem strand_filter_spec_witness :
    keepRead (some true) ⟨"r1", true, false, 0, [Cigar.Match 5]⟩ false = false
      ∧ processRead (some true) false ⟨0, 5⟩ (7, ["q"])
          ⟨"r1", true, false, 0, [Cigar.Match 5]⟩ = (7, ["q"])
      ∧ (keepRead (some true) ⟨"r1", true, false, 0, [Cigar.Match 5]⟩ true = true ↔
          True) := by
  refine ⟨by decide, ?_, ?_⟩
  · exact (strand_filter_spec true false ⟨"r1", true, false, 0, [Cigar.Match 5]⟩
      ⟨0, 5⟩ (7, ["q"])).2.2.1 (by decide)
  · have h := (strand_filter_spec true true ⟨"r1", true, false, 0, [Cigar.Match 5]⟩
      ⟨0, 5⟩ (7, ["q"])).2.2.2 rfl rfl
    simpa using h

/-- C5: overlap contribution.  For nonempty ranges, when the projected range
overlaps the interval the contribution equals
`min(range.end, interval.end) - max(range.start, interval.start)` also as an
integer (so it is a non-negative count, `max ≤ min`); when they do not
overlap the contribution is 0. -/
theorem range_contribution_spec (e exon : RRange)
    (he : e.start < e.stop) (hx : exon.start < exon.stop) :
    (e.start < exon.stop ∧ exon.start < e.stop →
        max e.start exon.start ≤ min e.stop exon.stop
          ∧ (rangeContribution e exon : ℤ)
              = (min e.stop exon.stop : ℤ) - (max e.start exon.start : ℤ))
      ∧ (¬ (e.start < exon.stop ∧ exon.start < e.stop) →
          rangeContribution e exon = 0) := by
  constructor
  · intro hov
    have hle : max e.start exon.start ≤ min e.stop exon.stop := by omega
    refine ⟨hle, ?_⟩
    rw [rangeContribution, if_pos hov]
    push_cast [hle]
    omega
  · intro hov
    rw [rangeContribution, if_neg hov]

/-- C5 witness: interval `[10,20)` and projected range `[15,25)` overlap and
contribute exactly `5 = min 25 20 - max 15 10`. -/
theorem range_contribution_spec_witness :
    rangeContribution ⟨15, 25⟩ ⟨10, 20⟩ = 5
      ∧ (rangeContribution ⟨15, 25⟩ ⟨10, 20⟩ : ℤ)
          = (min 25 20 : ℤ) - (max 15 10 : ℤ) := by
  refine ⟨by decide, ?_⟩
  have h := ((range_contribution_spec ⟨15, 25⟩ ⟨10, 20⟩ (by decide) (by decide)).1
    (by decide)).2
  simpa using h

/-- Result row (`struct Row`, `src/exon_cov.rs`, lines 62-72).  `stop` renders
the Rust field `end`; the `OrderedFloat<f64>` metric fields are modelled over
`ℚ`. -/
structure Row where
  seqname : String
  strand : String
  start : Nat
  stop : Nat
  cov : ℚ
  rpkm : ℚ
  transcript_id : String
  gene_id : String
deriving DecidableEq, Repr

/-- Assembly of one result row (`src/exon_cov.rs`, lines 236-261):
`exon_length = exon.0.end - exon.0.start`,
`rpkm = (1e10 * exon_reads.len()) / (total_reads * exon_length)` with the
literal constant `1e10f64` rendered as the exact integer `10000000000`, and
`cov = exon_cov / exon_length`. -/
def computeRow (seqname strand : String) (exon : RRange) (exon_cov : ℚ)
    (exon_reads_len total_reads : Nat) (transcript_id gene_id : String) : Row :=
  let exon_length : Nat := exon.stop - exon.start
  let rpkm : ℚ := (10000000000 * (exon_reads_len : ℚ)) / ((total_reads : ℚ) * (exon_length : ℚ))
  { seqname := seqname
    strand := strand
    start := exon.start
    stop := exon.stop
    cov := exon_cov / (exon_length : ℚ)
    rpkm := rpkm
    transcript_id := transcript_id
    gene_id := gene_id }

/-- C6: the reported metrics.  The coverage field of the row equals
`coverage_base_total / interval_length`, its RPKM equals
`(1e10 * distinct_read_count) / (total_reads * interval_length)` with the
literal constant `10^10`, and the concrete instance
`distinct = 2`, `total_reads = 1000000`, `length = 1000` gives RPKM exactly
20. -/
theorem row_metrics_spec :
    (∀ (sq st tid gid : String) (exon : RRange) (cov : ℚ) (reads total : Nat),
        (computeRow sq st exon cov reads total tid gid).cov
            = cov / ((exon.stop - exon.start : Nat) : ℚ)
          ∧ (computeRow sq st exon cov reads total tid gid).rpkm
            = (10 ^ 10 * (reads : ℚ))
                / ((total : ℚ) * ((exon.stop - exon.start : Nat) : ℚ)))
      ∧ (computeRow "chr1" "+" ⟨0, 1000⟩ 0 2 1000000 "" "").rpkm = 20 := by
  refine ⟨fun sq st tid gid exon cov reads total => ⟨rfl, by norm_num [computeRow]⟩, ?_⟩
  norm_num [computeRow]

/-- The modulus of `u64` arithmetic. -/
def U64MOD : Nat := 2 ^ 64

/-- The subtraction `exon.start - 1` of `write_exon_cov`
(`src/exon_cov.rs`, line 122) in wrapping `u64` arithmetic: for an in-range
operand this is `(start + 2^64 - 1) % 2^64`. -/
def u64sub1 (start : Nat) : Nat := (start + (U64MOD - 1)) % U64MOD

/-- Conversion of an accepted exon row (1-based inclusive `start`/`end`) to
the half-open interval `exon.start-1..exon.end` pushed by `write_exon_cov`
(`src/exon_cov.rs`, line 122). -/
def exonIntervalRange (start stop : Nat) : RRange :=
  ⟨u64sub1 start, stop⟩

/-- C10: under the precondition `1 ≤ start ≤ end < 2^64` the subtraction does
not wrap (`start - 1` is computed exactly) and the produced interval is
proper, `start - 1 < end`; at `start = 0` the subtraction underflows to
`2^64 - 1`, so the produced interval violates `start < end` for every
representable `end`. -/
theorem exon_interval_underflow_spec (start stop : Nat)
    (h1 : 1 ≤ start) (h2 : start ≤ stop) (h3 : stop < U64MOD) :
    (exonIntervalRange start stop).start = start - 1
      ∧ (exonIntervalRange start stop).start < (exonIntervalRange start stop).stop
      ∧ u64sub1 0 = U64MOD - 1
      ∧ ∀ e : Nat, e < U64MOD → ¬ (exonIntervalRange 0 e).start < (exonIntervalRange 0 e).stop := by
    have hmod : U64MOD = 2 ^ 64 := rfl
    have hs : u64sub1 start = start - 1 := by
      unfold u64sub1
      have h4 : start + (U64MOD - 1) = (start - 1) + U64MOD := by
        rw [hmod] at h3 ⊢
        omega
      rw [h4, Nat.add_mod_right, Nat.mod_eq_of_lt (by rw [hmod] at h3 ⊢; omega)]
    have h0 : u64sub1 0 = U64MOD - 1 := by
      unfold u64sub1
      rw [Nat.zero_add, Nat.mod_eq_of_lt (by rw [hmod]; omega)]
    refine ⟨hs, ?_, h0, ?_⟩
    · show u64sub1 start < stop
      rw [hs]
      omega
    · intro e he
      show ¬ u64sub1 0 < e
      rw [h0, hmod] at *
      omega

/-- C10 witness: the exon row `start = 1`, `end = 5` produces the proper
interval `[0, 5)`, and `start = 0` wraps to `2^64 - 1`. -/
theorem exon_interval_underflow_spec_witness :
    (exonIntervalRange 1 5).start = 0
      ∧ (exonIntervalRange 1 5).start < (exonIntervalRange 1 5).stop
      ∧ u64sub1 0 = U64MOD - 1 := by
  have h := exon_interval_underflow_spec 1 5 (by decide)
    (by decide) (by norm_num [U64MOD])
  exact ⟨h.1, h.2.1, h.2.2.1⟩

/-- Modelled from the spec: a feature row of the Annotation Graph (spec 3) —
feature type, chromosome, strand, 1-based inclusive start/end.  The defining
module `indexed_annotation.rs` is not under `src/`; only the fields read by
`write_exon_cov` are modelled.  `stop` renders the Rust field `end`. -/
structure FeatureRow where
  feature_type : String
  seqname : String
  strand : String
  start : Nat
  stop : Nat
deriving DecidableEq, Repr

/-- Default row used to render Rust slice indexing (`annot.rows[i]`); the
invariant of the spec says adjacency only references valid row indices, so the
default is never reached on invariant-respecting inputs. -/
def defaultRow : FeatureRow := ⟨"", "", "", 0, 0⟩

/-- Modelled from the spec: the parts of `IndexedAnnotation` read by
`write_exon_cov` — the feature rows and the parent-to-children adjacency
(`row2children`, absent key rendered as `[]` matching
`if let Some(feature_rows) = annot.row2children.get(..)`). -/
structure IndexedAnnotation where
  rows : List FeatureRow
  row2children : Nat → List Nat

/-- The three feature-type allow-lists of `Options` read by
`write_exon_cov` (`src/exon_cov.rs`, lines 51-56). -/
structure ExtractOptions where
  gene_type : List String
  transcript_type : List String
  exon_type : List String

/-- The allow-list test `list.is_empty() || list.contains(&ft)` used for all
three feature levels (`src/exon_cov.rs`, lines 101, 109-110, 119). -/
def matchesType (allow : List String) (ft : String) : Bool :=
  allow.isEmpty || allow.contains ft

/-- The extraction loop of `write_exon_cov` (`src/exon_cov.rs`, lines
99-130): for every gene row passing the gene allow-list, for every child
passing the transcript allow-list whose seqname and strand equal those of the gene
(`transcript.seqname == gene.seqname && transcript.strand == gene.strand`),
for every child of that transcript passing the exon allow-list, push the
interval `exon.start-1..exon.end` keyed by the own
`(seqname, strand)` and carrying `Some(exon_row)`.  The grouping HashMap is
rendered as the flat list of (key, interval) pairs in push order. -/
def extractUnmerged (opts : ExtractOptions) (annot : IndexedAnnotation) :
    List ((String × String) × IntervalE) :=
  (List.range annot.rows.length).flatMap (fun gene_row =>
    let gene := annot.rows.getD gene_row defaultRow
    if matchesType opts.gene_type gene.feature_type then
      (annot.row2children gene_row).flatMap (fun transcript_row =>
        let transcript := annot.rows.getD transcript_row defaultRow
        if matchesType opts.transcript_type transcript.feature_type
            && transcript.seqname == gene.seqname
            && transcript.strand == gene.strand then
          (annot.row2children transcript_row).flatMap (fun exon_row =>
            let exon := annot.rows.getD exon_row defaultRow
            if matchesType opts.exon_type exon.feature_type then
              [((exon.seqname, exon.strand),
                (exonIntervalRange exon.start exon.stop, some exon_row))]
            else [])
        else [])
    else [])

/-- Membership in a guarded list. -/
theorem mem_ite_nil_iff {α : Type} {c : Prop} [Decidable c] {l : List α} {a : α} :
    a ∈ (if c then l else []) ↔ c ∧ a ∈ l := by
  by_cases h : c <;> simp [h]

/-- C7: characterization of the extracted intervals.  An interval is produced
iff it arises from a gene row passing the gene allow-list, a child transcript
row passing the transcript allow-list whose seqname and strand both equal the
gene, and a child exon row passing the exon allow-list; the interval is
keyed by the own seqname/strand of the exon and carries the exon row index.  In
particular a transcript whose seqname or strand disagrees with its gene
yields no interval from any of its exons, and the extraction is a total
function (no error is raised). -/
theorem extract_unmerged_spec (opts : ExtractOptions) (annot : IndexedAnnotation)
    (k : String × String) (r : RRange) (o : Option Nat) :
    (k, (r, o)) ∈ extractUnmerged opts annot ↔
      ∃ gene_row transcript_row exon_row : Nat,
        gene_row < annot.rows.length
        ∧ matchesType opts.gene_type
            (annot.rows.getD gene_row defaultRow).feature_type = true
        ∧ transcript_row ∈ annot.row2children gene_row
        ∧ matchesType opts.transcript_type
            (annot.rows.getD transcript_row defaultRow).feature_type = true
        ∧ (annot.rows.getD transcript_row defaultRow).seqname
            = (annot.rows.getD gene_row defaultRow).seqname
        ∧ (annot.rows.getD transcript_row defaultRow).strand
            = (annot.rows.getD gene_row defaultRow).strand
        ∧ exon_row ∈ annot.row2children transcript_row
        ∧ matchesType opts.exon_type
            (annot.rows.getD exon_row defaultRow).feature_type = true
        ∧ k = ((annot.rows.getD exon_row defaultRow).seqname,
               (annot.rows.getD exon_row defaultRow).strand)
        ∧ r = exonIntervalRange (annot.rows.getD exon_row defaultRow).start
               (annot.rows.getD exon_row defaultRow).stop
        ∧ o = some exon_row := by
  simp only [extractUnmerged, List.mem_flatMap, List.mem_range, mem_ite_nil_iff,
    List.mem_singleton, Bool.and_eq_true, beq_iff_eq, Prod.mk.injEq]
  constructor
  · rintro ⟨g, hg, hgt, t, ht, ⟨⟨htt, hts⟩, hstr⟩, e, he, het, hk, hr, ho⟩
    exact ⟨g, t, e, hg, hgt, ht, htt, hts, hstr, he, het, hk, hr, ho⟩
  · rintro ⟨g, t, e, hg, hgt, ht, htt, hts, hstr, he, het, hk, hr, ho⟩
    exact ⟨g, hg, hgt, t, ht, ⟨⟨htt, hts⟩, hstr⟩, e, he, het, hk, hr, ho⟩

/-- The diagnostic line emitted for one failed task
(`eprintln!("Got Err in write_exon_cov: {:?}", e)`, `src/exon_cov.rs`,
line 274): a function of the error value alone — the failing interval is not
part of the message. -/
def formatErr (e : String) : String := "Got Err in write_exon_cov: " ++ e

/-- The collection loop over completed futures (`src/exon_cov.rs`, lines
267-277): an `Ok(row)` is pushed onto the row list, an `Err(e)` only logs and
is dropped.  Returns the collected rows together with the emitted log
lines, each in completion order. -/
def collectRows : List (Except String Row) → List Row × List String
  | [] => ([], [])
  | Except.ok row :: rest =>
    (row :: (collectRows rest).1, (collectRows rest).2)
  | Except.error e :: rest =>
    ((collectRows rest).1, formatErr e :: (collectRows rest).2)

/-- One task per target interval (`pool.spawn_fn`, `src/exon_cov.rs`, line
205), each returning `Result<Row>`; the futures are waited in submission
order, so the scheduler phase is the collection of `runOne` mapped over the
interval list. -/
def runTasks (exons : List IntervalE) (runOne : IntervalE → Except String Row) :
    List Row × List String :=
  collectRows (exons.map runOne)

/-- The derived lexicographic `Ord` of `struct Row` (`src/exon_cov.rs`, line
62): fields compared in declaration order. -/
def rowKey (r : Row) :
    String ×ₗ (String ×ₗ (Nat ×ₗ (Nat ×ₗ (ℚ ×ₗ (ℚ ×ₗ (String ×ₗ String)))))) :=
  toLex (r.seqname, toLex (r.strand, toLex (r.start, toLex (r.stop,
    toLex (r.cov, toLex (r.rpkm, toLex (r.transcript_id, r.gene_id)))))))

/-- Boolean total order on rows, `rows.sort()` comparison. -/
def rowLeB (a b : Row) : Bool := decide (rowKey a ≤ rowKey b)

/-- `rows.sort()` (`src/exon_cov.rs`, line 278) followed by emission: the
final ordered row list of one report. -/
def finalRows (exons : List IntervalE) (runOne : IntervalE → Except String Row) :
    List Row :=
  (runTasks exons runOne).1.mergeSort rowLeB

/-- Collection distributes over concatenation of the future list. -/
theorem collectRows_append (a b : List (Except String Row)) :
    collectRows (a ++ b)
      = ((collectRows a).1 ++ (collectRows b).1,
         (collectRows a).2 ++ (collectRows b).2) := by
  induction a with
  | nil => simp [collectRows]
  | cons hd tl ih =>
    cases hd <;> simp [collectRows, ih]

/-- C8 counterexample: the log entry of a failed task is a function of the
error value alone, so two runs whose only (failing) intervals differ produce
identical output and identical logs — the diagnostic does not carry enough
context to identify the failing interval. -/
theorem collect_log_counterexample :
    runTasks [(⟨0, 5⟩, none)] (fun _ => Except.error "bam read error")
        = runTasks [(⟨100, 200⟩, none)] (fun _ => Except.error "bam read error")
      ∧ ((⟨0, 5⟩, none) : IntervalE) ≠ ((⟨100, 200⟩, none) : IntervalE)
      ∧ (runTasks [(⟨0, 5⟩, none)] (fun _ => Except.error "bam read error")).2
        = [formatErr "bam read error"] := by
  exact ⟨rfl, by decide, rfl⟩

/-- C8 amended: a failure inside the computation of one interval is caught at the
task boundary and logged (as a message built from the error value only); the
failing interval is excluded from the result rows; sibling intervals before
and after it are unaffected; and the final output is a sorted permutation of
all successfully computed rows, so the run is not aborted. -/
theorem collect_failure_tolerance_spec (xs ys : List IntervalE) (bad : IntervalE)
    (runOne : IntervalE → Except String Row) (e : String)
    (hbad : runOne bad = Except.error e) :
    (runTasks (xs ++ bad :: ys) runOne).1 = (runTasks (xs ++ ys) runOne).1
      ∧ (runTasks (xs ++ bad :: ys) runOne).2
        = (runTasks xs runOne).2 ++ formatErr e :: (runTasks ys runOne).2
      ∧ (finalRows (xs ++ bad :: ys) runOne).Perm (runTasks (xs ++ bad :: ys) runOne).1
      ∧ List.Pairwise (fun a b => rowLeB a b = true) (finalRows (xs ++ bad :: ys) runOne) := by
  have htrans : ∀ a b c : Row, rowLeB a b = true → rowLeB b c = true → rowLeB a c = true := by
    intro a b c
    simp only [rowLeB, decide_eq_true_eq]
    exact le_trans
  have htotal : ∀ a b : Row, (rowLeB a b || rowLeB b a) = true := by
    intro a b
    simp only [rowLeB, Bool.or_eq_true, decide_eq_true_eq]
    exact le_total _ _
  refine ⟨?_, ?_, List.mergeSort_perm _ _, List.sorted_mergeSort htrans htotal _⟩
  · simp [runTasks, collectRows_append, collectRows, hbad]
  · simp [runTasks, collectRows_append, collectRows, hbad]

/-- A sample successful row for the C8 witness. -/
def sampleRow : Row := ⟨"chr1", "+", 10, 20, 0, 0, "", ""⟩

/-- A sample task function for the C8 witness: the interval starting at 0
fails, every other interval succeeds. -/
def sampleRun : IntervalE → Except String Row :=
  fun i => if i.1.start = 0 then Except.error "boom" else Except.ok sampleRow

/-- C8 witness: in the two-interval run where the first task fails, the rows
equal those of the run without the failing interval, the log holds the
formatted error, and the final rows are a sorted permutation of the collected
rows. -/
theorem collect_failure_tolerance_spec_witness :
    (runTasks [(⟨0, 5⟩, none), (⟨10, 20⟩, none)] sampleRun).1
        = (runTasks [(⟨10, 20⟩, none)] sampleRun).1
      ∧ (runTasks [(⟨0, 5⟩, none), (⟨10, 20⟩, none)] sampleRun).2
        = (runTasks ([] : List IntervalE) sampleRun).2
            ++ formatErr "boom" :: (runTasks [(⟨10, 20⟩, none)] sampleRun).2
      ∧ (finalRows [(⟨0, 5⟩, none), (⟨10, 20⟩, none)] sampleRun).Perm
          (runTasks [(⟨0, 5⟩, none), (⟨10, 20⟩, none)] sampleRun).1
      ∧ List.Pairwise (fun a b => rowLeB a b = true)
          (finalRows [(⟨0, 5⟩, none), (⟨10, 20⟩, none)] sampleRun) :=
  collect_failure_tolerance_spec [] [(⟨10, 20⟩, none)] (⟨0, 5⟩, none) sampleRun "boom" rfl

/-- `line.split('\t')` of `read_sizes_file` (`src/lib.rs`, line 77), on the
character list of a line already stripped of its trailing newline (the
`BufRead` framing and `trim_end_matches` are the I/O wrapper). -/
def splitTabAux (cur : List Char) : List Char → List (List Char)
  | [] => [cur.reverse]
  | c :: cs =>
    if c = '\t' then cur.reverse :: splitTabAux [] cs
    else splitTabAux (cur.cons c) cs

/-- Split one line into tab-separated columns. -/
def splitTab (line : List Char) : List (List Char) := splitTabAux [] line

/-- Decimal digit value of a character. -/
def digitVal (c : Char) : Option Nat :=
  if '0' ≤ c ∧ c ≤ '9' then some (c.toNat - '0'.toNat) else none

/-- Accumulate decimal digits left to right; any non-digit fails. -/
def parseDigits : List Char → Nat → Option Nat
  | [], acc => some acc
  | c :: cs, acc =>
    match digitVal c with
    | some d => parseDigits cs (10 * acc + d)
    | none => none

/-- `size.parse::<u64>()` (`src/lib.rs`, line 82): fails on the empty string,
on any non-digit character and on values not representable in `u64`.  (The
single optional leading sign accepted by Rust integer parsing is not
modelled; no claim depends on it.) -/
def parseU64 (cs : List Char) : Option Nat :=
  if cs.isEmpty then none
  else
    match parseDigits cs 0 with
    | some n => if n < U64MOD then some n else none
    | none => none

/-- `HashMap::insert` of one sizes entry: a previous binding of the same key
is overwritten. -/
def sizesInsert (refs : List (List Char × Nat)) (k : List Char) (v : Nat) :
    List (List Char × Nat) :=
  (refs.filter (fun p => p.1 ≠ k)) ++ [(k, v)]

/-- The per-line loop of `read_sizes_file` (`src/lib.rs`, lines 75-92),
returning the accumulated map together with the diagnostics emitted so far.
When the size column fails to parse, the code evaluates
`anyhow!("Could not parse size ...")` as a bare statement (`src/lib.rs`,
line 86): the error value is constructed and immediately discarded — it is
neither returned nor printed, so no branch of the loop emits a diagnostic
and the line is skipped silently. -/
def readSizesLoop (chrmap : List Char → Option (List Char)) :
    List (List Char) → List (List Char × Nat) × List String →
      List (List Char × Nat) × List String
  | [], st => st
  | line :: rest, st =>
    let cols := splitTab line
    let st2 :=
      match cols.get? 0 with
      | none => st
      | some chr =>
        let chr2 := (chrmap chr).getD chr
        match cols.get? 1 with
        | none => st
        | some size =>
          match parseU64 size with
          | some v => (sizesInsert st.1 chr2 v, st.2)
          | none => st
    readSizesLoop chrmap rest st2

/-- Lexicographic order on character lists, rendering the byte-slice key
order of `chrs.sort_by_key(|a| a.as_bytes())` (`src/lib.rs`, line 94);
identical on ASCII names. -/
def charListLtB : List Char → List Char → Bool
  | [], [] => false
  | [], _ :: _ => true
  | _ :: _, [] => false
  | a :: as, b :: bs =>
    if a < b then true else if b < a then false else charListLtB as bs

/-- Stable sorted insertion by key for the final sizes map. -/
def insertRefByName (x : List Char × Nat) :
    List (List Char × Nat) → List (List Char × Nat)
  | [] => [x]
  | y :: ys =>
    if charListLtB x.1 y.1 then x :: y :: ys else y :: insertRefByName x ys

/-- Sort the sizes entries by key, the `LinkedHashMap` rebuild of
`read_sizes_file` (`src/lib.rs`, lines 93-99). -/
def sortRefsByName : List (List Char × Nat) → List (List Char × Nat)
  | [] => []
  | x :: xs => insertRefByName x (sortRefsByName xs)

/-- `read_sizes_file` (`src/lib.rs`, lines 70-101) over the list of lines of
the sizes file: the loop, then the key-sorted map.  The only fallible steps
of the original are the `File::open` and `read_line` I/O calls, so on the
in-memory line list the function always returns `Ok`; the second component
is the list of emitted diagnostics. -/
def read_sizes_file (lines : List String) (chrmap : List Char → Option (List Char)) :
    Except String (List (List Char × Nat) × List String) :=
  let st := readSizesLoop chrmap (lines.map String.data) ([], [])
  Except.ok (sortRefsByName st.1, st.2)

/-- C9: evaluating `read_sizes_file` on a sizes file whose first line has the
unparsable size column `"foo"`.  The function returns successfully and the
malformed entry `chr1` is absent from the returned map — but the emitted
diagnostics are empty: the `anyhow!` error built for the line is discarded,
so no diagnostic for the skipped line is produced. -/
theorem read_sizes_malformed_eval :
    read_sizes_file ["chr1\tfoo", "chr2\t100"] (fun _ => none)
      = Except.ok ([("chr2".data, 100)], []) := by
  rfl

end CassetteReannotation
